import Mathlib

set_option maxRecDepth 10000

/-!
Shallow embedding of the resulam_royalties reconciliation pipeline:
`src/data/processor.py`, `src/utils/exchange_rates.py` and `src/config.py`.

Strings are modelled as `List Char` (wrapped into `String` at the interface).
Python cells that may be non-strings (e.g. `NaN` from pandas) are modelled by
`PyVal`.  Monetary amounts are modelled as exact rationals (`Rat`); the Python
floats in the source denote these decimal constants.  Library Unicode services
(`unicodedata.normalize('NFKD', ...)`, combining-mark detection, full-Unicode
lowercasing) are modelled as the identity outside ASCII, which is exact on the
ASCII data every concrete evaluation below runs on.
-/

/-- A pandas cell: either a Python string or a non-string value such as NaN. -/
inductive PyVal where
  | str (s : String)
  | nan
deriving DecidableEq

/-- ASCII whitespace, as matched by Python `str.strip()` and the regex class
`\s` on the data in scope. -/
def isWsChar (c : Char) : Bool :=
  c = ' ' || c = Char.ofNat 9 || c = Char.ofNat 10 || c = Char.ofNat 13 ||
    c = Char.ofNat 11 || c = Char.ofNat 12

/-- ASCII lowercasing, modelling Python `str.lower()` (identity outside `A`-`Z`;
every lowercase test in the source compares against already-lowercase
keywords, so only the ASCII range matters). -/
def lowerChar (c : Char) : Char :=
  if 65 ≤ c.toNat ∧ c.toNat ≤ 90 then Char.ofNat (c.toNat + 32) else c

/-- Does the first list start with the second one? -/
def listStartsWith : List Char → List Char → Bool
  | _, [] => true
  | [], _ :: _ => false
  | c :: cs, d :: ds => c = d && listStartsWith cs ds

/-- Python substring containment `needle in hay`. -/
def containsSeq (needle : List Char) : List Char → Bool
  | [] => needle.isEmpty
  | c :: cs => listStartsWith (c :: cs) needle || containsSeq needle cs

/-- Python `s.split(",")`: split on every comma, keeping empty segments. -/
def splitOnComma : List Char → List (List Char)
  | [] => [[]]
  | c :: cs =>
    if c = ',' then [] :: splitOnComma cs
    else
      match splitOnComma cs with
      | [] => [[c]]
      | s :: ss => (c :: s) :: ss

/-- Strip characters satisfying `p` from the right end of a list. -/
def rstripBy (p : Char → Bool) : List Char → List Char
  | [] => []
  | c :: cs =>
    match rstripBy p cs with
    | [] => if p c then [] else [c]
    | r => c :: r

/-- Python `str.strip()`: trim whitespace from both ends. -/
def stripBothL (l : List Char) : List Char :=
  rstripBy isWsChar (l.dropWhile isWsChar)

/-- Worker for whitespace collapsing; the flag records whether we are inside a
whitespace run that has already emitted its single `' '`. -/
def collapseAux : Bool → List Char → List Char
  | _, [] => []
  | inRun, c :: cs =>
    if isWsChar c then
      if inRun then collapseAux true cs else ' ' :: collapseAux true cs
    else c :: collapseAux false cs

/-- Python `re.sub(r'\s+', ' ', s)`: collapse each whitespace run to one space. -/
def collapseWs (l : List Char) : List Char := collapseAux false l

/-- List view of a string. -/
def strL (s : String) : List Char := s.toList

/-- Rebuild a string from its characters. -/
def ofL (l : List Char) : String := ⟨l⟩

/-- Python `s.strip()` at the `String` level. -/
def pyStripS (s : String) : String := ofL (stripBothL (strL s))

/-- Python `s.lower()` at the `String` level. -/
def pyLowerS (s : String) : String := ofL ((strL s).map lowerChar)

/-- Python `needle in hay` at the `String` level. -/
def containsStr (hay needle : String) : Bool := containsSeq (strL needle) (strL hay)

/-- RoyaltiesProcessor.count_authors on a string credit:
`len(s.split(","))` when `"resulam" in s.lower()`, else `len(s.split(",")) + 1`. -/
def countAuthorsStr (s : String) : Nat :=
  if containsSeq (strL "resulam") ((strL s).map lowerChar) then
    (splitOnComma (strL s)).length
  else
    (splitOnComma (strL s)).length + 1

/-- RoyaltiesProcessor.count_authors: non-strings count as 1. -/
def countAuthors : PyVal → Nat
  | .nan => 1
  | .str s => countAuthorsStr s

/-- Number of commas in a character list. -/
def commaCount (l : List Char) : Nat := l.countP (fun c => c = ',')

/-- First-match association lookup. -/
def assocFind {β : Type} (k : String) : List (String × β) → Option β
  | [] => none
  | p :: t => if p.1 = k then some p.2 else assocFind k t

/-- Python `dict` lookup for a dict built from an association list in order:
a later binding of the same key overrides an earlier one. -/
def pyDictGet {β : Type} (l : List (String × β)) (k : String) : Option β :=
  assocFind k l.reverse

/-- Exchange-rate tables: currency code to USD multiplier. -/
abbrev RateTable : Type := List (String × Rat)

/-- EXCHANGE_RATES_HARDCODED from `src/config.py` (decimal constants as exact
rationals). -/
def EXCHANGE_RATES_HARDCODED : RateTable :=
  [("EUR", 11/10), ("JPY", 73/10000), ("USD", 1), ("CAD", 4/5), ("GBP", 13/10),
   ("BRL", 1/5), ("AUD", 7/10), ("PLN", 1/4), ("SEK", 1/10), ("INR", 126/10000)]

/-- Python truthiness of an optional dict: `None` and the empty dict are falsy. -/
def truthyOpt : Option RateTable → Bool
  | none => false
  | some l => !l.isEmpty

/-- ExchangeRateManager.get_rates as a function of the outcomes of its effects:
`cached` is the result of `_load_cache()` (`none` when the cache file is
missing, expired or unreadable), `liveResult` the result of
`_fetch_live_rates` (which catches every exception and returns `None` on
failure; it is only consulted when `useLive` is true), `hardcoded` the
`hardcoded_fallback` argument.  Mirrors the source control flow:
cache is returned only when truthy and `use_live` is false; a truthy live
fetch is returned next; then the truthy hardcoded table; else `{'USD': 1.0}`. -/
def getRates (cached : Option RateTable) (useLive : Bool)
    (liveResult : Option RateTable) (hardcoded : Option RateTable) : RateTable :=
  if truthyOpt cached && !useLive then cached.getD []
  else if useLive && truthyOpt liveResult then liveResult.getD []
  else if truthyOpt hardcoded then hardcoded.getD []
  else [("USD", 1)]

/-- RoyaltiesProcessor.categorize_book_type (the `str(isbn)` conversion is
modelled by taking the identifier as a string). -/
def categorizeBookType (isbn : String)
    (ebookList paperList hardcoverList : List String) : String :=
  if paperList.contains isbn then "Paper"
  else if hardcoverList.contains isbn then "HardCover"
  else if ebookList.contains isbn then "Ebook"
  else "Unknown"

/-- The columns of one sales record consumed by
RoyaltiesProcessor.process_royalties.  In the pipeline the `Authors` column is
the (string) output of BookMetadataMapper.get_authors.  The `Royalty Date` /
`Year Sold` columns are not modelled (datetime parsing is out of scope). -/
structure SalesRow where
  authors : String
  royalty : Rat
  currency : String
  asinIsbn : String
deriving DecidableEq

/-- A processed record: the input columns plus the derived ones. -/
structure ProcessedRow extends SalesRow where
  authorsCount : Nat
  royaltyUSD : Rat
  perAuthorUSD : Rat
  bookType : String
deriving DecidableEq

/-- RoyaltiesProcessor.convert_to_usd:
`row['Royalty'] * exchange_rates.get(row['Currency'], 1.0)`. -/
def convertToUsd (r : SalesRow) (rates : RateTable) : Rat :=
  r.royalty * (pyDictGet rates r.currency).getD 1

/-- RoyaltiesProcessor.process_royalties on one record: author count, USD
conversion, per-author share, book-type classification. -/
def processRoyalties (r : SalesRow) (rates : RateTable)
    (ebookList paperList hardcoverList : List String) : ProcessedRow :=
  { r with
    authorsCount := countAuthorsStr r.authors
    royaltyUSD := convertToUsd r rates
    perAuthorUSD := convertToUsd r rates / (countAuthorsStr r.authors : Rat)
    bookType := categorizeBookType r.asinIsbn ebookList paperList hardcoverList }

/-- AUTHOR_NORMALIZATION from `src/config.py` (insertion order preserved). -/
def AUTHOR_NORMALIZATION : List (String × String) :=
  [("Rodrigue", "Shck Tchamna"),
   ("Shck Shck", "Shck Tchamna"),
   ("Shck Shck Tchamna", "Shck Tchamna"),
   ("Rodrigue Tchamna", "Shck Tchamna"),
   ("Shck Ca᷅mnà\x27", "Shck Tchamna"),
   ("Shck Cǎmnà\x27", "Shck Tchamna"),
   ("Shck CCa᷅mnà\x27", "Shck Tchamna"),
   ("Zachée Denis BITJAA  KODY", "Zachée Denis BITJAA KODY"),
   ("Zachee Bitjaa Kody", "Zachée Denis BITJAA KODY"),
   ("Pr Zachée Denis BITJAA KODY", "Zachée Denis BITJAA KODY"),
   ("Resulam Resulam", "Resulam"),
   ("Jean rene Djobia", "Tanyi Djobia René"),
   ("Jean René Djobia", "Tanyi Djobia René"),
   ("Tanyi Djobia Rene", "Tanyi Djobia René"),
   ("Tchamna", "Shck Tchamna"),
   ("Mə̂fo Gòmlù\x27 Gòmlù\x27 Motoum", "Mə̂fo Gòmlù\x27 Motoum"),
   ("Mə̂fo Gòmlù\x27 Motoum", "Mə̂fo Gòmlù\x27 Motoum"),
   ("Mə̂fo Gòmlù’ Motoum", "Mə̂fo Gòmlù\x27 Motoum"),
   ("Pascaline Motoum", "Mə̂fo Gòmlù\x27 Motoum"),
   ("SHCK Tchamna", "Shck Tchamna"),
   ("Claude Lionel Mvondo", "Claude Lionel Mvondo Edzoa"),
   (" Claude Lionel Mvondo Edzoa", "Claude Lionel Mvondo Edzoa"),
   ("Claude Mvondo Edzoa", "Claude Lionel Mvondo Edzoa"),
   ("IMELE TSAFACK", "Imele Tsafack"),
   ("Tsafack Imele", "Imele Tsafack"),
   ("Joseph Oyange Wajuanga", "Joseph Oyange"),
   ("Josephine Ndonke", "Joséphine Ndonke"),
   ("Joséphine Ndonke", "Joséphine Ndonke"),
   ("Iyo Ngobo Ekwalla", "Ngobo Ekwala"),
   ("Oliver Germain Tafouemewe", "Olivier Tafouemewe"),
   ("Gabriel Deeh Segallo", "Deeh Segallo"),
   ("Deeh Segallo", "Deeh Segallo"),
   ("Ngo Bibouth", "Martine Rosette Ngo Bibuth"),
   ("Martine Rosette Ngo Bibuth", "Martine Rosette Ngo Bibuth")]

/-- pandas `Series.replace(mapping)` at the level of one cell: replace the value
when it is exactly a key of the mapping. -/
def replaceViaTable (table : List (String × String)) (v : String) : String :=
  (pyDictGet table v).getD v

/-- RoyaltiesProcessor.explode_authors on one processed record:
`Authors.strip().split(',')`, one output row per segment, the segment stripped
and passed through AUTHOR_NORMALIZATION; every other column is duplicated. -/
def explodeAuthors (p : ProcessedRow) : List (ProcessedRow × String) :=
  (splitOnComma (stripBothL (strL p.authors))).map
    (fun seg => (p, replaceViaTable AUTHOR_NORMALIZATION (ofL (stripBothL seg))))

/-- Sum of the `Royalty per Author (USD)` column over exploded rows. -/
def sumPerAuthor (rows : List (ProcessedRow × String)) : Rat :=
  (rows.map (fun e => e.1.perAuthorUSD)).sum

/-- Worker for Python `str.replace(old, new)`: scan left to right, replacing
non-overlapping occurrences.  The fuel argument (instantiated with the input
length, which bounds the number of scan steps) keeps the recursion
structural. -/
def replaceAllFuel (key val : List Char) : Nat → List Char → List Char
  | 0, l => l
  | n + 1, l =>
    match l with
    | [] => []
    | c :: cs =>
      if !key.isEmpty && listStartsWith l key then
        val ++ replaceAllFuel key val n (l.drop key.length)
      else c :: replaceAllFuel key val n cs

/-- Python `s.replace(old, new)` (all non-overlapping occurrences). -/
def replaceAllL (key val l : List Char) : List Char :=
  replaceAllFuel key val l.length l

/-- TITLE_NORMALIZATION from `src/config.py`. -/
def TITLE_NORMALIZATION : List (String × String) :=
  [("Conversation de base", "Conversations de base"),
   ("Guide de conversation trilingue français-anglais-yemba",
    "Guide de conversation trilingue français-anglais-yemba: French-Yemba-English Phrasebook")]

/-- DataCleaner.normalize_titles on one title cell: apply each
TITLE_NORMALIZATION substring substitution in order, then strip. -/
def normalizeTitleCell (s : String) : String :=
  ofL (stripBothL
    (TITLE_NORMALIZATION.foldl
      (fun l p => replaceAllL (strL p.1) (strL p.2) l) (strL s)))

/-- The cleaning the pipeline applies to a sales-record title:
DataCleaner.normalize_dataframe (strip, then collapse whitespace) followed by
DataCleaner.normalize_titles (variant substitution, then strip), as in
load_and_process_all_data. -/
def salesTitleClean (s : String) : String :=
  normalizeTitleCell (ofL (collapseWs (stripBothL (strL s))))

/-- ASCII digit test (`\d` on the data in scope). -/
def isDigitChar (c : Char) : Bool := 48 ≤ c.toNat && c.toNat ≤ 57

/-- The character class `[–-]` of the date-suffix pattern: en dash or hyphen. -/
def isDashChar (c : Char) : Bool := c = Char.ofNat 0x2013 || c = '-'

/-- Consume one optional occurrence of `c` at the head (regex `c?`; in this
pattern the following alternatives never accept `c`, so greedy consumption is
exact). -/
def dropOpt (c : Char) (l : List Char) : List Char :=
  match l with
  | d :: t => if d = c then t else l
  | [] => l

/-- Month names of the date-suffix pattern alternation. -/
def monthNames : List (List Char) :=
  [strL "January", strL "February", strL "March", strL "April", strL "May",
   strL "June", strL "July", strL "August", strL "September", strL "October",
   strL "November", strL "December"]

/-- Tail of the date-suffix pattern after the year: `\.?,?\s*$`. -/
def dsAfterYear (l : List Char) : Bool :=
  (dropOpt ',' (dropOpt '.' l)).all isWsChar

/-- `\d{4}\.?,?\s*$`. -/
def dsYear (l : List Char) : Bool :=
  match l with
  | a :: b :: c :: d :: rest =>
    isDigitChar a && isDigitChar b && isDigitChar c && isDigitChar d &&
      dsAfterYear rest
  | _ => false

/-- `,?\s+\d{4}\.?,?\s*$`. -/
def dsAfterDay (l : List Char) : Bool :=
  match dropOpt ',' l with
  | c :: t => isWsChar c && dsYear (t.dropWhile isWsChar)
  | [] => false

/-- `\d{1,2},?\s+\d{4}\.?,?\s*$` (greedy two-digit attempt with one-digit
backtrack). -/
def dsDay (l : List Char) : Bool :=
  match l with
  | a :: rest =>
    isDigitChar a &&
      ((match rest with
        | b :: rest2 => isDigitChar b && dsAfterDay rest2
        | [] => false) ||
       dsAfterDay rest)
  | [] => false

/-- `\s+\d{1,2}...` after the month name. -/
def dsAfterMonth (l : List Char) : Bool :=
  match l with
  | c :: t => isWsChar c && dsDay (t.dropWhile isWsChar)
  | [] => false

/-- The month alternation followed by the rest of the pattern. -/
def dsMonth (l : List Char) : Bool :=
  monthNames.any (fun m => listStartsWith l m && dsAfterMonth (l.drop m.length))

/-- Does the date-suffix pattern
`\.?\s*[–-]\s*(January|...|December)\s+\d{1,2},?\s+\d{4}\.?,?\s*$` from
load_and_process_all_data match starting at this position and reaching the end
of the string? -/
def dateSuffixFrom (l : List Char) : Bool :=
  match (dropOpt '.' l).dropWhile isWsChar with
  | c :: t => isDashChar c && dsMonth (t.dropWhile isWsChar)
  | [] => false

/-- `re.sub(date_pattern, '', s)`: delete from the leftmost position where the
(end-anchored) date-suffix pattern matches. -/
def stripDateSuffixL : List Char → List Char
  | [] => []
  | c :: cs => if dateSuffixFrom (c :: cs) then [] else c :: stripDateSuffixL cs

/-- The books-database title step of load_and_process_all_data:
`.str.replace(date_pattern, '', regex=True).str.strip()`. -/
def booksTitleDateStrip (s : String) : String :=
  ofL (stripBothL (stripDateSuffixL (strL s)))

/-- The quote/dash/apostrophe unification table of
BookMetadataMapper._normalize_for_matching: each source `str.replace` call
substitutes one code point by one ASCII code point, so their composition is a
character map. -/
def replaceSpecialChar (c : Char) : Char :=
  if c = Char.ofNat 0x2018 then Char.ofNat 39
  else if c = Char.ofNat 0x2019 then Char.ofNat 39
  else if c = Char.ofNat 0x201C then Char.ofNat 34
  else if c = Char.ofNat 0x201D then Char.ofNat 34
  else if c = Char.ofNat 0xAB then Char.ofNat 34
  else if c = Char.ofNat 0xBB then Char.ofNat 34
  else if c = Char.ofNat 0x2013 then Char.ofNat 45
  else if c = Char.ofNat 0x2014 then Char.ofNat 45
  else if c = Char.ofNat 0x2BC then Char.ofNat 39
  else if c = Char.ofNat 0x2B9 then Char.ofNat 39
  else if c = Char.ofNat 39 then Char.ofNat 39
  else if c = Char.ofNat 0x2032 then Char.ofNat 39
  else c

/-- `unicodedata.normalize('NFKD', ·)` per character, modelled as the identity
(exact on ASCII; the accented letters exercised below are NFKD-stable in the
model). -/
def nfkdChar (c : Char) : List Char := [c]

/-- `unicodedata.combining(c) != 0`, modelled as false (no combining marks in
the model alphabet). -/
def isCombiningChar (_ : Char) : Bool := false

/-- Trailing punctuation stripped by `_normalize_for_matching`:
`rstrip('.,;:!')`. -/
def isPunctTailChar (c : Char) : Bool :=
  c = '.' || c = ',' || c = ';' || c = ':' || c = '!'

/-- Stage 1: quote/dash replacements. -/
def nfmStage1 (l : List Char) : List Char := l.map replaceSpecialChar

/-- Stage 2: NFKD decomposition (modelled). -/
def nfmStage2 (l : List Char) : List Char := l.flatMap nfkdChar

/-- Stage 3: drop combining marks (modelled). -/
def nfmStage3 (l : List Char) : List Char := l.filter (fun c => !isCombiningChar c)

/-- Stage 4: lowercase. -/
def nfmStage4 (l : List Char) : List Char := l.map lowerChar

/-- Stage 5: collapse whitespace runs. -/
def nfmStage5 (l : List Char) : List Char := collapseWs l

/-- Stage 6: `strip()` then `rstrip('.,;:!')`. -/
def nfmStage6 (l : List Char) : List Char :=
  rstripBy isPunctTailChar (rstripBy isWsChar (l.dropWhile isWsChar))

/-- BookMetadataMapper._normalize_for_matching. -/
def normalizeForMatchingL (l : List Char) : List Char :=
  nfmStage6 (nfmStage5 (nfmStage4 (nfmStage3 (nfmStage2 (nfmStage1 l)))))

/-- `_normalize_for_matching` at the `String` level. -/
def normalizeForMatchingS (s : String) : String :=
  ofL (normalizeForMatchingL (strL s))

/-- BOOK_NICKNAME_MAPPING from `src/config.py`, in dict insertion order (the
eight generated `KAM i` keys first).  No key occurs twice. -/
def BOOK_NICKNAME_MAPPING : List (String × String) :=
  [("Nùfī Attic - Le Grenier du Nùfī - KAM 1:", "nufi_attic_interactive"),
   ("Nùfī Attic - Le Grenier du Nùfī - KAM 2:", "nufi_attic_interactive"),
   ("Nùfī Attic - Le Grenier du Nùfī - KAM 3:", "nufi_attic_interactive"),
   ("Nùfī Attic - Le Grenier du Nùfī - KAM 4:", "nufi_attic_interactive"),
   ("Nùfī Attic - Le Grenier du Nùfī - KAM 5:", "nufi_attic_interactive"),
   ("Nùfī Attic - Le Grenier du Nùfī - KAM 6:", "nufi_attic_interactive"),
   ("Nùfī Attic - Le Grenier du Nùfī - KAM 7:", "nufi_attic_interactive"),
   ("Nùfī Attic - Le Grenier du Nùfī - KAM 8:", "nufi_attic_interactive"),
   ("Ntǎ\x27 Nùfī - Nùfī Attic - Le Grenier du Nùfī (Version sans audio)", "nufi_attic_ebook"),
   ("Conte Africain -Fongbe: « Travaille aujourd\x27hui et mange demain, paresse aujourd\x27hui et vole demain » – January 15, 2019", "fongbe_conte_travaille_paresse"),
   ("Conte Africain -Fongbe: « Travaille aujourd\x27hui et mange demain, paresse aujourd\x27hui et vole demain ».", "fongbe_conte_travaille_paresse"),
   ("Guide de conversation trilingue Français-anglais-fe\x27efe\x27e.: French-Fè\x27éfě\x27è-English Phrasebook", "nufi_phrasebook"),
   ("La grammaire des langues bamilekes : cas du nufi", "nufi_grammaire"),
   ("La fourmi affamée : Nufi-Français: Nzhìèkǔ\x27 mɑ̀nkō ngʉ́ngà\x27", "nufi_fourmi_affamee"),
   ("Contes africains, contes bamilekés racontés en nufi et traduits en francais (Full Color): African\x27s fairy tales", "nufi_contes_bamilekes"),
   ("Conversations de base en langue fe\x27efe\x27e: Basic Conversation in Fe\x27efe\x27e Language", "nufi_conv.base"),
   ("Conte Bamiléké-Nufi « Travaille aujourd\x27hui et mange demain, paresse aujourd\x27hui et vole demain ».: Version Nufi-Francais", "nufi_travail_paresse"),
   ("Contes africains, contes bamilékés racontés en nufi et traduits en français (Black and White): African\x27s fairy tales", "nufi_contes_bamileke_black_white"),
   ("Contes bamilekés racontés en medumba et traduits en français (Black and White): medumba (Bangangte) Fairy tales", "medumba_contes_bamilekes_black_white"),
   ("Contes bamilekés racontés en medumba et traduits en français: medumba (bangante) fairy tales", "medumba_contes_bamileke_couleur"),
   ("Expressions idiomatiques en langue fè\x27éfě\x27è (nùfī): Yū\x27 mfèn pí yū\x27 nkɑ̀ndàk mɑ̀ ghə̀ə̄ fè\x27éfě\x27è (nùfī)", "nufi_expression_idiom."),
   ("Grammaire des langues bamilékés : Cas du nufi (fè\x27éfě\x27è): Sìēmbʉ́ɑ́ fè\x27éfě\x27è", "nufi_grammaire"),
   ("Guide de conversation (phrasebook) en langue fe\x27efe\x27e (nufi) - part I: Trilingual Phrasebook : French-English-Nufi", "nufi_phrasebook"),
   ("Guide de conversation trilingue français-anglais-douala: French-Duala-English Phrasebook", "duala_phrasebook"),
   ("Guide de conversation trilingue français-anglais-medumba: French-Medumba-English Phrasebook", "medumba_phrasebook"),
   ("Guide de conversation trilingue français-anglais-yemba: French-Yemba-English Phrasebook", "yemba_phrasebook"),
   ("La fourmi affamée: Nzhìèkǔ\x27 mɑ̀nkō ngʉ́ngà\x27", "nufi_fourmi_affamee"),
   ("Le Grenier du Nguemba: Ntâŋ Ŋgə̂mbà : Ngemba Attic", "ngemba_grenier"),
   ("Syllabaire et dictionnaire visuel en langue nufi (fe\x27efe\x27e): Nkǔnjâ\x27wū pí mbíághəə", "nufi_syllabaire"),
   ("Yoruba - French - English Phrasebook: Guide de conversation Yoruba – Français - Anglais", "yoruba_phrasebook"),
   ("Contes africains, contes bamilekés racontés en nufi et traduits en francais: African\x27s fairy tales, bamileke tales", "nufi_contes_bamilekes"),
   ("La fourmi affamée : Ŋgə̂mbà – Français: Tə́ttá pfʉ́ njjikhwu\x27ú", "ngemba_fourmi_affamee")]

/-- The `_nickname_lookup` dict precomputed in `_create_mappings`: normalized
keys of BOOK_NICKNAME_MAPPING (a later binding overrides an earlier one). -/
def nicknameLookupTable : List (String × String) :=
  BOOK_NICKNAME_MAPPING.map (fun p => (normalizeForMatchingS p.1, p.2))

/-- BookMetadataMapper.get_book_nickname: non-strings are returned unchanged;
otherwise exact match against BOOK_NICKNAME_MAPPING on the stripped title,
then normalized match, then the stripped title itself. -/
def getBookNickname : PyVal → PyVal
  | .nan => .nan
  | .str title =>
    let ts := pyStripS title
    match pyDictGet BOOK_NICKNAME_MAPPING ts with
    | some n => .str n
    | none =>
      match pyDictGet nicknameLookupTable (normalizeForMatchingS ts) with
      | some n => .str n
      | none => .str ts

/-- BookMetadataMapper.get_authors on a string title: hardcoded substring
overrides first, then the catalog author mapping, then the default
`"Resulam, Shck Tchamna"`. -/
def getAuthorsStr (authorMapping : List (String × String)) (title : String) : String :=
  if containsStr title "Guide de conversation trilingue français-anglais-yemba" then
    "Giresse Jiokeng Feutsa, Oliver Germain Tafouemewe, Shck Tchamna"
  else if containsStr title "Contes bamilekés racontés en medumba et traduits en français (Black and White)" then
    "Leopold Tchoumi"
  else if containsStr title "Yoruba - French - English Phrasebook: Guide de conversation Yoruba – Français - Anglais" then
    "Resulam, Shck Tchamna"
  else if containsStr title "Le Grenier du Nguemba: Ntâŋ Ŋgə̂mbà : Ngemba Attic" then
    "Deeh Segallo, Resulam, Shck Tchamna"
  else if containsStr title "La fourmi affamée: Nzhìèkǔ\x27 mɑ̀nkō ngʉ́ngà\x27" then
    "Resulam, Shck Tchamna"
  else if containsStr (pyLowerS title) "nùfī" || containsStr (pyLowerS title) "nufi" ||
      containsStr (pyLowerS title) "fe\x27efe\x27e" then
    "Resulam, Shck Tchamna"
  else
    (pyDictGet authorMapping title).getD "Resulam, Shck Tchamna"

/-- BookMetadataMapper.get_authors as called on a title cell.  The source has
no `isinstance` guard: its first statement evaluates
`'Guide de ...' in title`, which raises `TypeError` when the title is not a
string (e.g. NaN); modelled by `Except.error`. -/
def getAuthorsPy (authorMapping : List (String × String)) :
    PyVal → Except String String
  | .nan => .error "TypeError"
  | .str t => .ok (getAuthorsStr authorMapping t)

/-- LanguageClassifier.classify_language on a string title (the non-string
branch returns the input and is never reached from get_language). -/
def classifyLanguageS (title : String) : String :=
  let tl := pyLowerS title
  if containsStr tl "nùfī" || containsStr tl "nufi" || containsStr tl "fe\x27efe\x27e" ||
      containsStr title "Nzhìèkǔ\x27 mɑ̀nkō ngʉ́ngà\x27" then "Nufi"
  else if containsStr tl "medumba" then "Medumba"
  else if containsStr tl "yemba" then "Yemba"
  else if containsStr tl "yoruba" then "Yoruba"
  else if containsStr tl "duala" then "Duala"
  else if containsStr tl "fongbe" then "Fongbe"
  else if containsStr tl "chichewa" then "Chichewa"
  else if containsStr tl "tshiluba" then "Tshiluba"
  else if containsStr tl "twi" then "Twi"
  else if containsStr tl "shupamom" || containsStr tl "bamoun" then "Bamoun"
  else if containsStr tl "grenier du nguemba" || containsStr title "Ŋgə̂mbà" then "Ngemba"
  else if containsStr tl "grenier du hausa" || containsStr tl "grenier hausa" then "Hausa"
  else "Other"

/-- The `_language_lookup` dict of `_create_mappings`: normalized catalog
titles to language names (catalog cells modelled as strings). -/
def languageLookupOf (languageMapping : List (String × String)) :
    List (String × String) :=
  languageMapping.map (fun p => (normalizeForMatchingS p.1, p.2))

/-- BookMetadataMapper.get_language: `"Other"` for non-strings; exact catalog
match (accepted when the entry is a non-empty string), then normalized match,
then the keyword classifier. -/
def getLanguage (languageMapping : List (String × String)) : PyVal → String
  | .nan => "Other"
  | .str title =>
    let ts := pyStripS title
    let fallback :=
      match pyDictGet (languageLookupOf languageMapping) (normalizeForMatchingS ts) with
      | some lang => lang
      | none => classifyLanguageS ts
    match pyDictGet languageMapping ts with
    | some lang => if lang ≠ "" then lang else fallback
    | none => fallback

-- Basic facts about the split.

theorem splitOnComma_ne_nil (l : List Char) : splitOnComma l ≠ [] := by
  cases l with
  | nil => simp [splitOnComma]
  | cons c cs =>
    simp only [splitOnComma]
    split
    · simp
    · cases h : splitOnComma cs <;> simp

theorem splitOnComma_length (l : List Char) :
    (splitOnComma l).length = commaCount l + 1 := by
  induction l with
  | nil => simp [splitOnComma, commaCount]
  | cons c cs ih =>
    have ihc : (splitOnComma cs).length = commaCount cs + 1 := ih
    by_cases h : c = ','
    · simp only [splitOnComma, if_pos h, List.length_cons, ihc, commaCount,
        List.countP_cons, h]
      simp only [commaCount] at ihc
      simp [ihc]
    · have hne := splitOnComma_ne_nil cs
      cases hsp : splitOnComma cs with
      | nil => exact absurd hsp hne
      | cons s ss =>
        rw [hsp] at ihc
        simp only [List.length_cons] at ihc
        simp only [splitOnComma, if_neg h, hsp, List.length_cons, commaCount,
          List.countP_cons]
        simp only [commaCount] at ihc
        simp [h, ihc]


theorem splitOnComma_length_pos (l : List Char) : 1 ≤ (splitOnComma l).length :=
  List.length_pos.mpr (splitOnComma_ne_nil l)

theorem countAuthorsStr_pos (s : String) : 1 ≤ countAuthorsStr s := by
  unfold countAuthorsStr
  by_cases h : containsSeq (strL "resulam") ((strL s).map lowerChar) = true
  · simpa [h] using splitOnComma_length_pos (strL s)
  · rw [if_neg h]
    omega

-- If every element of a list satisfies `p`, stripping by `p` from the right of
-- an all-`p` list empties it; conversely an empty strip means all-`p`.

theorem rstripBy_eq_nil_forall {p : Char → Bool} :
    ∀ l : List Char, rstripBy p l = [] → ∀ c ∈ l, p c = true := by
  intro l
  induction l with
  | nil => intro _ c hc; cases hc
  | cons c cs ih =>
    intro h d hd
    cases hrt : rstripBy p cs with
    | nil =>
      simp only [rstripBy, hrt] at h
      by_cases hpc : p c = true
      · rcases List.mem_cons.mp hd with rfl | hdm
        · exact hpc
        · exact ih hrt d hdm
      · simp [hpc] at h
    | cons e t => simp [rstripBy, hrt] at h

theorem rstripBy_cons_ne_nil {p : Char → Bool} (c : Char) (cs : List Char)
    (h : rstripBy p (c :: cs) ≠ []) : ∃ t, rstripBy p (c :: cs) = c :: t := by
  cases hrt : rstripBy p cs with
  | nil =>
    simp only [rstripBy, hrt] at h ⊢
    by_cases hpc : p c = true
    · simp [hpc] at h
    · simp [hpc]
  | cons e t => simp [rstripBy, hrt]

theorem commaCount_dropWhile_isWs (l : List Char) :
    commaCount (l.dropWhile isWsChar) = commaCount l := by
  induction l with
  | nil => rfl
  | cons c cs ih =>
    by_cases h : isWsChar c = true
    · have hc : ¬(c = ',') := by
        intro hcc; subst hcc; simp [isWsChar] at h
      have ih' : List.countP (fun c => decide (c = ',')) (List.dropWhile isWsChar cs) =
          List.countP (fun c => decide (c = ',')) cs := ih
      simp only [List.dropWhile_cons, h, if_true, commaCount, List.countP_cons]
      simp [hc, ih']
    · simp [List.dropWhile_cons, h]

theorem commaCount_rstripBy_isWs (l : List Char) :
    commaCount (rstripBy isWsChar l) = commaCount l := by
  induction l with
  | nil => rfl
  | cons c cs ih =>
    have hwsnc : ∀ d : Char, isWsChar d = true → ¬(d = ',') := by
      intro d hd hdc; subst hdc; simp [isWsChar] at hd
    cases hrt : rstripBy isWsChar cs with
    | nil =>
      have hall := rstripBy_eq_nil_forall cs hrt
      have hcs : commaCount cs = 0 := by
        simp only [commaCount, List.countP_eq_zero]
        intro d hd
        simp only [decide_eq_true_eq]
        exact hwsnc d (hall d hd)
      by_cases hpc : isWsChar c = true
      · simp only [rstripBy, hrt, if_pos hpc, commaCount, List.countP_cons,
          List.countP_nil]
        have : ¬(c = ',') := hwsnc c hpc
        simp only [commaCount] at hcs
        simp [this, hcs]
      · simp only [rstripBy, hrt, if_neg hpc, commaCount, List.countP_cons,
          List.countP_nil]
        simp only [commaCount] at hcs
        simp [hcs]
    | cons e t =>
      have ih' : List.countP (fun c => decide (c = ',')) (rstripBy isWsChar cs) =
          List.countP (fun c => decide (c = ',')) cs := ih
      rw [hrt] at ih'
      simp only [List.countP_cons] at ih'
      simp only [rstripBy, hrt, commaCount, List.countP_cons]
      omega

theorem commaCount_stripBoth (l : List Char) :
    commaCount (stripBothL l) = commaCount l := by
  unfold stripBothL
  rw [commaCount_rstripBy_isWs, commaCount_dropWhile_isWs]

theorem sum_map_const {α : Type} (l : List α) (c : Rat) :
    (l.map (fun _ => c)).sum = (l.length : Rat) * c := by
  induction l with
  | nil => simp
  | cons a t ih =>
    simp only [List.map_cons, List.sum_cons, ih, List.length_cons]
    push_cast
    ring

theorem sumPerAuthor_explode (p : ProcessedRow) :
    sumPerAuthor (explodeAuthors p) =
      ((splitOnComma (strL p.authors)).length : Rat) * p.perAuthorUSD := by
  unfold sumPerAuthor explodeAuthors
  rw [List.map_map]
  have hconst : ((fun e : ProcessedRow × String => e.1.perAuthorUSD) ∘
      (fun seg => (p, replaceViaTable AUTHOR_NORMALIZATION (ofL (stripBothL seg))))) =
      (fun _ : List Char => p.perAuthorUSD) := rfl
  rw [hconst, sum_map_const]
  have hlen : (splitOnComma (stripBothL (strL p.authors))).length =
      (splitOnComma (strL p.authors)).length := by
    rw [splitOnComma_length, splitOnComma_length, commaCount_stripBoth]
  rw [hlen]

/-- The publisher-count the claim describes: number of comma-separated
segments, plus one unless `"Resulam"` appears (case-insensitively, up to
surrounding whitespace) as one of the segments. -/
def claimCountAuthors (s : String) : Nat :=
  let segs := splitOnComma (strL s)
  if segs.any (fun seg => (stripBothL seg).map lowerChar = strL "resulam") then
    segs.length
  else
    segs.length + 1

/-- Claim C1, counterexample: on `"Resulamania"` the code counts 1 author
(the substring `"resulam"` occurs in the lowercased credit), while the
claim's segment-based rule counts 2, so the claimed equality fails. -/
theorem c1_counterexample :
    countAuthorsStr "Resulamania" = 1 ∧ claimCountAuthors "Resulamania" = 2 ∧
      countAuthorsStr "Resulamania" ≠ claimCountAuthors "Resulamania" := by
  refine ⟨by decide, by decide, by decide⟩

/-- Claim C1, amended: count_authors adds 1 to the number of comma-separated
segments unless `"resulam"` occurs case-insensitively as a **substring** of
the whole credit string (not necessarily as a full segment); the credit
`"Jane Doe, John Roe"` yields 3. -/
theorem c1_theorem :
    (∀ s : String, countAuthorsStr s =
      (if containsSeq (strL "resulam") ((strL s).map lowerChar) then
        commaCount (strL s) + 1
      else
        commaCount (strL s) + 2)) ∧
    countAuthorsStr "Jane Doe, John Roe" = 3 := by
  constructor
  · intro s
    unfold countAuthorsStr
    rw [splitOnComma_length]
  · decide

/-- Claim C2 (confirmed): `Royalty USD` is the local royalty times the rate
table entry for the record's currency (1 when absent), `Royalty per Author
(USD)` is `Royalty USD` over `Authors Count`; a record with currency EUR,
royalty 10 and credit `"Resulam"` (count 1) converts to `10 × rate(EUR)` with
the per-author share equal to the full USD amount. -/
theorem c2_theorem :
    (∀ (r : SalesRow) (rates : RateTable) (eL pL hL : List String),
      (processRoyalties r rates eL pL hL).royaltyUSD =
          r.royalty * (pyDictGet rates r.currency).getD 1 ∧
        (processRoyalties r rates eL pL hL).perAuthorUSD =
          (processRoyalties r rates eL pL hL).royaltyUSD /
            ((processRoyalties r rates eL pL hL).authorsCount : Rat)) ∧
    (processRoyalties ⟨"Resulam", 10, "EUR", "x"⟩ EXCHANGE_RATES_HARDCODED
        [] [] []).royaltyUSD =
      10 * (pyDictGet EXCHANGE_RATES_HARDCODED "EUR").getD 1 ∧
    (processRoyalties ⟨"Resulam", 10, "EUR", "x"⟩ EXCHANGE_RATES_HARDCODED
        [] [] []).perAuthorUSD =
      (processRoyalties ⟨"Resulam", 10, "EUR", "x"⟩ EXCHANGE_RATES_HARDCODED
        [] [] []).royaltyUSD := by
  refine ⟨fun r rates eL pL hL => ⟨rfl, rfl⟩, rfl, ?_⟩
  show convertToUsd _ _ / ((countAuthorsStr "Resulam" : Nat) : Rat) = convertToUsd _ _
  have hc : countAuthorsStr "Resulam" = 1 := by decide
  rw [hc]
  norm_num

/-- Claim C3, counterexample: for a record with credit `"Leopold Tchoumi"`
(publisher absent), royalty 10 USD, the code derives Authors Count 2 and a
per-author share of 5, but explode_authors emits a single row, so the
exploded column sums to 5, not `Authors Count × share = 10`. -/
theorem c3_counterexample :
    (processRoyalties ⟨"Leopold Tchoumi", 10, "USD", "x"⟩
        EXCHANGE_RATES_HARDCODED [] [] []).authorsCount = 2 ∧
    (processRoyalties ⟨"Leopold Tchoumi", 10, "USD", "x"⟩
        EXCHANGE_RATES_HARDCODED [] [] []).perAuthorUSD = 5 ∧
    sumPerAuthor (explodeAuthors (processRoyalties ⟨"Leopold Tchoumi", 10, "USD", "x"⟩
        EXCHANGE_RATES_HARDCODED [] [] [])) = 5 ∧
    sumPerAuthor (explodeAuthors (processRoyalties ⟨"Leopold Tchoumi", 10, "USD", "x"⟩
        EXCHANGE_RATES_HARDCODED [] [] [])) ≠
      ((processRoyalties ⟨"Leopold Tchoumi", 10, "USD", "x"⟩
        EXCHANGE_RATES_HARDCODED [] [] []).authorsCount : Rat) *
        (processRoyalties ⟨"Leopold Tchoumi", 10, "USD", "x"⟩
          EXCHANGE_RATES_HARDCODED [] [] []).perAuthorUSD := by
  have hcount : countAuthorsStr "Leopold Tchoumi" = 2 := by decide
  have hrate : (pyDictGet EXCHANGE_RATES_HARDCODED "USD").getD 1 = 1 := by decide
  have hper : (processRoyalties ⟨"Leopold Tchoumi", 10, "USD", "x"⟩
      EXCHANGE_RATES_HARDCODED [] [] []).perAuthorUSD = 5 := by
    show convertToUsd _ _ / ((countAuthorsStr "Leopold Tchoumi" : Nat) : Rat) = 5
    rw [hcount]
    show (10 : Rat) * (pyDictGet EXCHANGE_RATES_HARDCODED "USD").getD 1 /
      ((2 : Nat) : Rat) = 5
    rw [hrate]
    norm_num
  have hsum : sumPerAuthor (explodeAuthors (processRoyalties
      ⟨"Leopold Tchoumi", 10, "USD", "x"⟩ EXCHANGE_RATES_HARDCODED [] [] [])) = 5 := by
    rw [sumPerAuthor_explode]
    have hlen : (splitOnComma (strL "Leopold Tchoumi")).length = 1 := by decide
    show ((splitOnComma (strL "Leopold Tchoumi")).length : Rat) * _ = 5
    rw [hlen, hper]
    norm_num
  refine ⟨hcount, hper, hsum, ?_⟩
  have hac : (processRoyalties ⟨"Leopold Tchoumi", 10, "USD", "x"⟩
      EXCHANGE_RATES_HARDCODED [] [] []).authorsCount = 2 := hcount
  rw [hsum, hac, hper]
  norm_num

/-- Claim C3, amended: the exploded rows for a record sum to (number of
comma-separated segments of the credit string) × per-author share; this equals
`Authors Count × share` (the record's full USD total) exactly when
`"resulam"` occurs case-insensitively in the credit string (then no implicit
publisher is added), and otherwise falls one share short. -/
theorem c3_theorem (r : SalesRow) (rates : RateTable) (eL pL hL : List String) :
    sumPerAuthor (explodeAuthors (processRoyalties r rates eL pL hL)) =
      ((splitOnComma (strL r.authors)).length : Rat) *
        (processRoyalties r rates eL pL hL).perAuthorUSD ∧
    (containsSeq (strL "resulam") ((strL r.authors).map lowerChar) = true →
      sumPerAuthor (explodeAuthors (processRoyalties r rates eL pL hL)) =
        ((processRoyalties r rates eL pL hL).authorsCount : Rat) *
          (processRoyalties r rates eL pL hL).perAuthorUSD) := by
  constructor
  · exact sumPerAuthor_explode _
  · intro h
    rw [sumPerAuthor_explode]
    have : (processRoyalties r rates eL pL hL).authorsCount =
        (splitOnComma (strL r.authors)).length := by
      show countAuthorsStr r.authors = _
      unfold countAuthorsStr
      rw [if_pos h]
    rw [this]
    rfl

/-- Witness for c3_theorem at the credit `"Resulam, Shck Tchamna"` (publisher
listed): two exploded rows, each carrying the 5 USD share, sum to the
record's full 10 USD. -/
theorem c3_witness :
    sumPerAuthor (explodeAuthors (processRoyalties
        ⟨"Resulam, Shck Tchamna", 10, "USD", "x"⟩ [] [] [] [])) =
      ((processRoyalties ⟨"Resulam, Shck Tchamna", 10, "USD", "x"⟩
          [] [] [] []).authorsCount : Rat) *
        (processRoyalties ⟨"Resulam, Shck Tchamna", 10, "USD", "x"⟩
          [] [] [] []).perAuthorUSD := by
  have h := c3_theorem ⟨"Resulam, Shck Tchamna", 10, "USD", "x"⟩ [] [] [] []
  exact h.2 (by decide)

/-- Claim C5, counterexample: with a valid non-empty disk cache, a requested
live fetch that fails, and a non-empty hardcoded table, get_rates returns the
hardcoded table, not the cached rates: the cache is only consulted when
`use_live` is false. -/
theorem c5_counterexample :
    getRates (some [("EUR", 1)]) true none (some [("EUR", 2)]) = [("EUR", 2)] ∧
      getRates (some [("EUR", 1)]) true none (some [("EUR", 2)]) ≠ [("EUR", 1)] := by
  refine ⟨rfl, by decide⟩

/-- Claim C5, amended: when a live fetch is requested and fails, get_rates
ignores the cache entirely and falls back directly to the hardcoded table
when that is non-empty, else to `{'USD': 1.0}`; the fetch failure is absorbed
(modelled by the total function on the fetch outcome), never raised. -/
theorem c5_theorem (cached hardcoded : Option RateTable) :
    getRates cached true none hardcoded =
      (if truthyOpt hardcoded then hardcoded.getD [] else [("USD", 1)]) := by
  simp [getRates, truthyOpt]

/-- Claim C7 (confirmed): categorize_book_type is total and exclusive; the
paperback list is checked first, then hardcover, then ebook, else
`"Unknown"`. -/
theorem c7_theorem (isbn : String) (ebookList paperList hardcoverList : List String) :
    (categorizeBookType isbn ebookList paperList hardcoverList = "Paper" ∨
      categorizeBookType isbn ebookList paperList hardcoverList = "HardCover" ∨
      categorizeBookType isbn ebookList paperList hardcoverList = "Ebook" ∨
      categorizeBookType isbn ebookList paperList hardcoverList = "Unknown") ∧
    (categorizeBookType isbn ebookList paperList hardcoverList = "Paper" ↔
      paperList.contains isbn = true) ∧
    (categorizeBookType isbn ebookList paperList hardcoverList = "HardCover" ↔
      (paperList.contains isbn = false ∧ hardcoverList.contains isbn = true)) ∧
    (categorizeBookType isbn ebookList paperList hardcoverList = "Ebook" ↔
      (paperList.contains isbn = false ∧ hardcoverList.contains isbn = false ∧
        ebookList.contains isbn = true)) ∧
    (categorizeBookType isbn ebookList paperList hardcoverList = "Unknown" ↔
      (paperList.contains isbn = false ∧ hardcoverList.contains isbn = false ∧
        ebookList.contains isbn = false)) := by
  unfold categorizeBookType
  split_ifs with hp hh he <;> refine ⟨?_, ?_, ?_, ?_, ?_⟩ <;> simp_all

/-- Claim C10 (confirmed): count_authors always returns at least 1 (1 for
non-strings, 2 for the empty string: one empty segment plus the implicit
publisher), so the Authors Count denominator of `Royalty per Author (USD)` is
never zero. -/
theorem c10_theorem :
    (∀ v : PyVal, 1 ≤ countAuthors v) ∧
    countAuthors .nan = 1 ∧
    countAuthorsStr "" = 2 ∧
    (∀ (r : SalesRow) (rates : RateTable) (eL pL hL : List String),
      (processRoyalties r rates eL pL hL).authorsCount ≠ 0) := by
  refine ⟨?_, rfl, by decide, ?_⟩
  · intro v
    cases v with
    | nan => exact le_refl 1
    | str s => exact countAuthorsStr_pos s
  · intro r rates eL pL hL
    have h := countAuthorsStr_pos r.authors
    show countAuthorsStr r.authors ≠ 0
    omega

/-- Modelled from the spec: the books-catalog CSV (the `books_df` data file
loaded from Google Drive / S3 at runtime) is not part of the source tree; per
the spec the catalog resolves the Yemba phrasebook title to language
`"Yemba"` ("via catalog, not keyword fallback"), so its language mapping is
modelled as containing exactly that entry. -/
def modelledCatalogLanguages : List (String × String) :=
  [("Guide de conversation trilingue français-anglais-yemba: French-Yemba-English Phrasebook",
    "Yemba")]

/-- Claim C8 (confirmed): whatever the catalog's author mapping contains, the
Yemba phrasebook title resolves to the hardcoded author override, to the
nickname `"yemba_phrasebook"` (exact BOOK_NICKNAME_MAPPING hit), and to
language `"Yemba"` (catalog entry modelled from the spec). -/
theorem c8_theorem (am : List (String × String)) :
    getAuthorsStr am
        "Guide de conversation trilingue français-anglais-yemba: French-Yemba-English Phrasebook" =
      "Giresse Jiokeng Feutsa, Oliver Germain Tafouemewe, Shck Tchamna" ∧
    getBookNickname
        (.str "Guide de conversation trilingue français-anglais-yemba: French-Yemba-English Phrasebook") =
      .str "yemba_phrasebook" ∧
    getLanguage modelledCatalogLanguages
        (.str "Guide de conversation trilingue français-anglais-yemba: French-Yemba-English Phrasebook") =
      "Yemba" := by
  refine ⟨?_, by decide, by decide⟩
  have h : containsStr
      "Guide de conversation trilingue français-anglais-yemba: French-Yemba-English Phrasebook"
      "Guide de conversation trilingue français-anglais-yemba" = true := by decide
  unfold getAuthorsStr
  rw [if_pos h]

/-- Claim C9, counterexample: get_authors has no `isinstance` guard; on a
non-string title (NaN) its first substring test raises `TypeError` instead of
returning the default author string. -/
theorem c9_counterexample :
    getAuthorsPy [] PyVal.nan = .error "TypeError" ∧
      getAuthorsPy [] PyVal.nan ≠ .ok "Resulam, Shck Tchamna" := by
  refine ⟨rfl, ?_⟩
  intro h
  exact Except.noConfusion h

/-- Claim C9, amended: get_book_nickname and get_language degrade gracefully
on every input — non-strings come back unchanged resp. as `"Other"`, and
unresolvable string titles yield the trimmed title resp. the keyword
classification — and get_authors returns the default
`"Resulam, Shck Tchamna"` for every unresolvable *string* title; but on a
non-string title get_authors raises `TypeError` rather than returning a
default. -/
theorem c9_theorem (am lm : List (String × String)) (t : String)
    (hn1 : pyDictGet BOOK_NICKNAME_MAPPING (pyStripS t) = none)
    (hn2 : pyDictGet nicknameLookupTable (normalizeForMatchingS (pyStripS t)) = none)
    (hl1 : pyDictGet lm (pyStripS t) = none)
    (hl2 : pyDictGet (languageLookupOf lm) (normalizeForMatchingS (pyStripS t)) = none)
    (ha1 : containsStr t "Guide de conversation trilingue français-anglais-yemba" = false)
    (ha2 : containsStr t "Contes bamilekés racontés en medumba et traduits en français (Black and White)" = false)
    (ha3 : containsStr t "Yoruba - French - English Phrasebook: Guide de conversation Yoruba – Français - Anglais" = false)
    (ha4 : containsStr t "Le Grenier du Nguemba: Ntâŋ Ŋgə̂mbà : Ngemba Attic" = false)
    (ha5 : containsStr t "La fourmi affamée: Nzhìèkǔ\x27 mɑ̀nkō ngʉ́ngà\x27" = false)
    (ha6 : containsStr (pyLowerS t) "nùfī" = false)
    (ha7 : containsStr (pyLowerS t) "nufi" = false)
    (ha8 : containsStr (pyLowerS t) "fe\x27efe\x27e" = false)
    (ha9 : pyDictGet am t = none) :
    getBookNickname (.str t) = .str (pyStripS t) ∧
    getLanguage lm (.str t) = classifyLanguageS (pyStripS t) ∧
    getAuthorsStr am t = "Resulam, Shck Tchamna" ∧
    getBookNickname .nan = .nan ∧
    getLanguage lm .nan = "Other" ∧
    getAuthorsPy am .nan = .error "TypeError" := by
  refine ⟨?_, ?_, ?_, rfl, rfl, rfl⟩
  · simp [getBookNickname, hn1, hn2]
  · simp [getLanguage, hl1, hl2]
  · simp [getAuthorsStr, ha1, ha2, ha3, ha4, ha5, ha6, ha7, ha8, ha9]

/-- Witness for c9_theorem at the unresolvable title `"zzz"` with empty
catalog mappings. -/
theorem c9_witness :
    getBookNickname (.str "zzz") = .str (pyStripS "zzz") ∧
    getLanguage [] (.str "zzz") = classifyLanguageS (pyStripS "zzz") ∧
    getAuthorsStr [] "zzz" = "Resulam, Shck Tchamna" ∧
    getBookNickname .nan = .nan ∧
    getLanguage [] .nan = "Other" ∧
    getAuthorsPy [] .nan = .error "TypeError" :=
  c9_theorem [] [] "zzz" (by decide) (by decide) (by decide) (by decide)
    (by decide) (by decide) (by decide) (by decide) (by decide) (by decide)
    (by decide) (by decide) (by decide)

/-- A character is stable for the second pass of `_normalize_for_matching`:
the quote/dash replacement and lowercasing fix it. -/
def charFixB (c : Char) : Bool :=
  (replaceSpecialChar c == c) && (lowerChar c == c)

/-- Is `c` one of the explicitly replaced code points? -/
def isSpecialChar (c : Char) : Bool :=
  c = Char.ofNat 0x2018 || c = Char.ofNat 0x2019 || c = Char.ofNat 0x201C ||
    c = Char.ofNat 0x201D || c = Char.ofNat 0xAB || c = Char.ofNat 0xBB ||
    c = Char.ofNat 0x2013 || c = Char.ofNat 0x2014 || c = Char.ofNat 0x2BC ||
    c = Char.ofNat 0x2B9 || c = Char.ofNat 39 || c = Char.ofNat 0x2032

theorem replaceSpecialChar_eq_self {c : Char} (h : isSpecialChar c = false) :
    replaceSpecialChar c = c := by
  simp only [isSpecialChar, Bool.or_eq_false_iff, decide_eq_false_iff_not] at h
  obtain ⟨⟨⟨⟨⟨⟨⟨⟨⟨⟨⟨h1, h2⟩, h3⟩, h4⟩, h5⟩, h6⟩, h7⟩, h8⟩, h9⟩, h10⟩, h11⟩, h12⟩ := h
  simp [replaceSpecialChar, h1, h2, h3, h4, h5, h6, h7, h8, h9, h10, h11, h12]

theorem lowerChar_of_upper {c : Char} (h : 65 ≤ c.toNat ∧ c.toNat ≤ 90) :
    lowerChar c = Char.ofNat (c.toNat + 32) := by
  simp [lowerChar, h]

theorem lowerChar_of_not_upper {c : Char} (h : ¬(65 ≤ c.toNat ∧ c.toNat ≤ 90)) :
    lowerChar c = c := by
  simp [lowerChar, h]

theorem charFixB_lower_replace (c : Char) :
    charFixB (lowerChar (replaceSpecialChar c)) = true := by
  by_cases hs : isSpecialChar c = true
  · simp only [isSpecialChar, Bool.or_eq_true, decide_eq_true_eq] at hs
    rcases hs with ((((((((((h | h) | h) | h) | h) | h) | h) | h) | h) | h) | h) | h <;>
      subst h <;> decide
  · rw [Bool.not_eq_true] at hs
    rw [replaceSpecialChar_eq_self hs]
    by_cases hup : 65 ≤ c.toNat ∧ c.toNat ≤ 90
    · rw [lowerChar_of_upper hup]
      obtain ⟨ha, hb⟩ := hup
      revert ha hb
      generalize c.toNat = n
      intro ha hb
      interval_cases n <;> decide
    · rw [lowerChar_of_not_upper hup]
      simp only [charFixB, Bool.and_eq_true, beq_iff_eq]
      exact ⟨replaceSpecialChar_eq_self hs, lowerChar_of_not_upper hup⟩

theorem mem_of_mem_collapseAux :
    ∀ (b : Bool) (l : List Char) (c : Char), c ∈ collapseAux b l → c = ' ' ∨ c ∈ l := by
  intro b l
  induction l generalizing b with
  | nil => intro c hc; cases hc
  | cons d cs ih =>
    intro c hc
    by_cases hd : isWsChar d = true
    · by_cases hb : b = true
      · subst hb
        simp only [collapseAux, hd, if_true] at hc
        rcases ih true c hc with h | h
        · exact Or.inl h
        · exact Or.inr (List.mem_cons_of_mem _ h)
      · rw [Bool.not_eq_true] at hb
        subst hb
        simp only [collapseAux, hd, if_true] at hc
        rcases List.mem_cons.mp hc with h | h
        · exact Or.inl h
        · rcases ih true c h with h' | h'
          · exact Or.inl h'
          · exact Or.inr (List.mem_cons_of_mem _ h')
    · simp only [collapseAux, hd] at hc
      rcases List.mem_cons.mp hc with h | h
      · subst h; exact Or.inr (List.mem_cons_self _ _)
      · rcases ih false c h with h' | h'
        · exact Or.inl h'
        · exact Or.inr (List.mem_cons_of_mem _ h')

theorem mem_of_mem_rstripBy {p : Char → Bool} :
    ∀ (l : List Char) (c : Char), c ∈ rstripBy p l → c ∈ l := by
  intro l
  induction l with
  | nil => intro c hc; cases hc
  | cons d cs ih =>
    intro c hc
    cases hrt : rstripBy p cs with
    | nil =>
      simp only [rstripBy, hrt] at hc
      by_cases hp : p d = true
      · simp [hp] at hc
      · simp only [hp] at hc
        simp only [Bool.false_eq_true, if_false] at hc
        rcases List.mem_cons.mp hc with h | h
        · subst h; exact (List.mem_cons_self _ _)
        · cases h
    | cons e t =>
      simp only [rstripBy, hrt] at hc
      rcases List.mem_cons.mp hc with h | h
      · subst h; exact (List.mem_cons_self _ _)
      · have := ih c (hrt ▸ h)
        exact List.mem_cons_of_mem _ this

theorem mem_of_mem_dropWhile {p : Char → Bool} :
    ∀ (l : List Char) (c : Char), c ∈ l.dropWhile p → c ∈ l := by
  intro l
  induction l with
  | nil => intro c hc; cases hc
  | cons d cs ih =>
    intro c hc
    by_cases hp : p d = true
    · simp only [List.dropWhile_cons, hp, if_true] at hc
      exact List.mem_cons_of_mem _ (ih c hc)
    · simp only [List.dropWhile_cons, hp] at hc
      simp only [Bool.false_eq_true, if_false] at hc
      exact hc

theorem nfmStage2_id (l : List Char) : nfmStage2 l = l := by
  unfold nfmStage2 nfkdChar
  induction l with
  | nil => rfl
  | cons c cs ih => simp [List.flatMap_cons, ih]

theorem nfmStage3_id (l : List Char) : nfmStage3 l = l := by
  unfold nfmStage3 isCombiningChar
  simp

theorem map_eq_self_of_fix {f : Char → Char} :
    ∀ l : List Char, (∀ c ∈ l, f c = c) → l.map f = l := by
  intro l
  induction l with
  | nil => intro _; rfl
  | cons c cs ih =>
    intro h
    simp only [List.map_cons]
    rw [h c (List.mem_cons_self _ _), ih (fun d hd => h d (List.mem_cons_of_mem _ hd))]

/-- Every character of a `_normalize_for_matching` output is fixed by the
replacement table and by lowercasing. -/
theorem charFixB_of_mem_norm (l : List Char) :
    ∀ c ∈ normalizeForMatchingL l, charFixB c = true := by
  intro c hc
  unfold normalizeForMatchingL nfmStage6 nfmStage5 at hc
  rw [nfmStage2_id, nfmStage3_id] at hc
  have hc1 := mem_of_mem_rstripBy _ c hc
  have hc2 := mem_of_mem_rstripBy _ c hc1
  have hc3 := mem_of_mem_dropWhile _ c hc2
  rcases mem_of_mem_collapseAux false _ c hc3 with h | h
  · subst h; decide
  · unfold nfmStage4 nfmStage1 at h
    rw [List.map_map] at h
    rcases List.mem_map.mp h with ⟨a, _, rfl⟩
    exact charFixB_lower_replace a

/-- A whitespace character acceptable in collapsed output: only `' '`. -/
def wsOkChar (c : Char) : Bool := !isWsChar c || (c == ' ')

/-- The invariant of collapsed text: whitespace only as single `' '`
characters, never two adjacent. -/
def collapsedP : List Char → Bool
  | [] => true
  | [c] => wsOkChar c
  | a :: b :: t => wsOkChar a && !(isWsChar a && isWsChar b) && collapsedP (b :: t)

/-- Head emptiness or non-whitespace. -/
def headNonWs : List Char → Bool
  | [] => true
  | c :: _ => !isWsChar c

theorem collapsedP_tail {c : Char} {cs : List Char}
    (h : collapsedP (c :: cs) = true) : collapsedP cs = true := by
  cases cs with
  | nil => rfl
  | cons d t =>
    simp only [collapsedP, Bool.and_eq_true] at h
    exact h.2

theorem collapsedP_head {c : Char} {cs : List Char}
    (h : collapsedP (c :: cs) = true) : wsOkChar c = true := by
  cases cs with
  | nil => exact h
  | cons d t =>
    simp only [collapsedP, Bool.and_eq_true] at h
    exact h.1.1

theorem collapsedP_cons_of {a : Char} {l : List Char}
    (ha : wsOkChar a = true)
    (hpair : ∀ b t, l = b :: t → ¬(isWsChar a = true ∧ isWsChar b = true))
    (hl : collapsedP l = true) : collapsedP (a :: l) = true := by
  cases l with
  | nil => exact ha
  | cons b t =>
    have hp := hpair b t rfl
    simp only [collapsedP, Bool.and_eq_true]
    refine ⟨⟨ha, ?_⟩, hl⟩
    simp only [Bool.not_eq_eq_eq_not, Bool.not_true, Bool.and_eq_false_iff]
    by_cases hwa : isWsChar a = true
    · right
      by_cases hwb : isWsChar b = true
      · exact absurd ⟨hwa, hwb⟩ hp
      · simpa using hwb
    · left
      simpa using hwa

theorem collapseAux_true_eq (l : List Char) :
    collapseAux true l = collapseAux false (l.dropWhile isWsChar) := by
  induction l with
  | nil => rfl
  | cons c cs ih =>
    by_cases hw : isWsChar c = true
    · simp only [collapseAux, hw, if_true, List.dropWhile_cons, ih]
    · simp only [collapseAux, hw, List.dropWhile_cons]
      simp only [Bool.false_eq_true, if_false, collapseAux, hw]

theorem dropWhileLenLe (p : Char → Bool) :
    ∀ l : List Char, (l.dropWhile p).length ≤ l.length := by
  intro l
  induction l with
  | nil => exact Nat.le_refl 0
  | cons c cs ih =>
    by_cases hp : p c = true
    · simp only [List.dropWhile_cons, hp, if_true]
      exact Nat.le_succ_of_le ih
    · simp [List.dropWhile_cons, hp]

theorem headNonWs_dropWhile (l : List Char) :
    headNonWs (l.dropWhile isWsChar) = true := by
  induction l with
  | nil => rfl
  | cons c cs ih =>
    by_cases hw : isWsChar c = true
    · simpa [List.dropWhile_cons, hw] using ih
    · simp [List.dropWhile_cons, hw, headNonWs]

theorem collapsedP_collapseAux_false :
    ∀ (n : Nat) (l : List Char), l.length ≤ n →
      collapsedP (collapseAux false l) = true := by
  intro n
  induction n with
  | zero =>
    intro l hl
    have : l = [] := List.length_eq_zero.mp (Nat.le_zero.mp hl)
    subst this
    rfl
  | succ n ih =>
    intro l hl
    cases l with
    | nil => rfl
    | cons c cs =>
      simp only [List.length_cons, Nat.succ_le_succ_iff] at hl
      by_cases hw : isWsChar c = true
      · simp only [collapseAux, hw, if_true, collapseAux_true_eq]
        have hlen : (cs.dropWhile isWsChar).length ≤ n :=
          Nat.le_trans (dropWhileLenLe isWsChar cs) hl
        have hP := ih (cs.dropWhile isWsChar) hlen
        have hh := headNonWs_dropWhile cs
        cases hl' : cs.dropWhile isWsChar with
        | nil => simp [hl', collapseAux, collapsedP, wsOkChar]
        | cons d t =>
          rw [hl'] at hP hh
          simp only [headNonWs, Bool.not_eq_eq_eq_not, Bool.not_true] at hh
          simp only [collapseAux, hh] at hP ⊢
          simp only [Bool.false_eq_true, if_false] at hP ⊢
          refine collapsedP_cons_of (by decide) ?_ hP
          intro b t' hbt hcon
          have hb : d = b := by
            have h' := congrArg (fun l : List Char => l.headD ' ') hbt
            simpa using h'
          rw [← hb, hh] at hcon
          simp at hcon
      · simp only [collapseAux, hw]
        simp only [Bool.false_eq_true, if_false]
        have hP := ih cs hl
        refine collapsedP_cons_of ?_ ?_ hP
        · simp [wsOkChar, hw]
        · intro b t hbt hcon
          exact hw hcon.1

theorem collapsedP_collapse (l : List Char) :
    collapsedP (collapseWs l) = true :=
  collapsedP_collapseAux_false l.length l (Nat.le_refl _)

theorem dropWhile_eq_self_of_headNonWs {l : List Char} (h : headNonWs l = true) :
    l.dropWhile isWsChar = l := by
  cases l with
  | nil => rfl
  | cons c cs =>
    simp only [headNonWs, Bool.not_eq_eq_eq_not, Bool.not_true] at h
    simp [List.dropWhile_cons, h]

theorem collapseAux_false_eq_self :
    ∀ l : List Char, collapsedP l = true → collapseAux false l = l := by
  intro l
  induction l with
  | nil => intro _; rfl
  | cons c cs ih =>
    intro h
    have hPcs := collapsedP_tail h
    by_cases hw : isWsChar c = true
    · have hc : c = ' ' := by
        have hh := collapsedP_head h
        simp only [wsOkChar, hw, Bool.not_true, Bool.false_or, beq_iff_eq] at hh
        exact hh
      have hhead : headNonWs cs = true := by
        cases cs with
        | nil => rfl
        | cons d t =>
          have h' := h
          simp only [collapsedP, Bool.and_eq_true] at h'
          have hnd := h'.1.2
          simp only [Bool.not_eq_eq_eq_not, Bool.not_true,
            Bool.and_eq_false_iff] at hnd
          rcases hnd with h1 | h2
          · rw [hw] at h1; cases h1
          · simp [headNonWs, h2]
      simp only [collapseAux, hw, if_true, collapseAux_true_eq,
        dropWhile_eq_self_of_headNonWs hhead, ih hPcs, hc]
      simp
    · simp only [collapseAux, hw]
      simp only [Bool.false_eq_true, if_false]
      rw [ih hPcs]

theorem collapsedP_dropWhile {p : Char → Bool} :
    ∀ l : List Char, collapsedP l = true → collapsedP (l.dropWhile p) = true := by
  intro l
  induction l with
  | nil => intro _; rfl
  | cons c cs ih =>
    intro h
    by_cases hp : p c = true
    · simp only [List.dropWhile_cons, hp, if_true]
      exact ih (collapsedP_tail h)
    · simpa [List.dropWhile_cons, hp] using h

theorem collapsedP_rstripBy {p : Char → Bool} :
    ∀ l : List Char, collapsedP l = true → collapsedP (rstripBy p l) = true := by
  intro l
  induction l with
  | nil => intro _; rfl
  | cons c cs ih =>
    intro h
    have hPcs := collapsedP_tail h
    cases hrt : rstripBy p cs with
    | nil =>
      simp only [rstripBy, hrt]
      by_cases hp : p c = true
      · simp [hp, collapsedP]
      · simp only [hp]
        simp only [Bool.false_eq_true, if_false]
        exact collapsedP_head h
    | cons e t =>
      simp only [rstripBy, hrt]
      have hP' : collapsedP (e :: t) = true := by rw [← hrt]; exact ih hPcs
      refine collapsedP_cons_of (collapsedP_head h) ?_ hP'
      intro b t' hbt hcon
      have hbe : e = b := by
        have h' := congrArg (fun l : List Char => l.headD ' ') hbt
        simpa using h'
      cases cs with
      | nil => simp [rstripBy] at hrt
      | cons f u =>
        obtain ⟨t2, ht2⟩ := rstripBy_cons_ne_nil f u (by rw [hrt]; simp)
        rw [hrt] at ht2
        have hfe : e = f := by
          have h' := congrArg (fun l : List Char => l.headD ' ') ht2
          simpa using h'
        have h' := h
        simp only [collapsedP, Bool.and_eq_true] at h'
        have hnd := h'.1.2
        simp only [Bool.not_eq_eq_eq_not, Bool.not_true,
          Bool.and_eq_false_iff] at hnd
        rcases hnd with h1 | h2
        · rw [hcon.1] at h1; cases h1
        · have hwf : isWsChar f = true := by rw [← hfe, hbe]; exact hcon.2
          rw [h2] at hwf
          cases hwf

theorem headNonWs_rstripBy {p : Char → Bool} {l : List Char}
    (h : headNonWs l = true) : headNonWs (rstripBy p l) = true := by
  cases l with
  | nil => rfl
  | cons c cs =>
    cases hrt : rstripBy p (c :: cs) with
    | nil => rfl
    | cons e t =>
      obtain ⟨t2, ht2⟩ := rstripBy_cons_ne_nil c cs (by rw [hrt]; simp)
      rw [hrt] at ht2
      have hec : e = c := by
        have h' := congrArg (fun l : List Char => l.headD ' ') ht2
        simpa using h'
      simp only [headNonWs] at h ⊢
      rw [hec]
      exact h

theorem rstripBy_getLast {p : Char → Bool} :
    ∀ (l : List Char) (c : Char), (rstripBy p l).getLast? = some c → p c = false := by
  intro l
  induction l with
  | nil => intro c hc; simp [rstripBy] at hc
  | cons d cs ih =>
    intro c hc
    cases hrt : rstripBy p cs with
    | nil =>
      simp only [rstripBy, hrt] at hc
      by_cases hp : p d = true
      · simp [hp] at hc
      · simp only [hp] at hc
        simp only [Bool.false_eq_true, if_false] at hc
        have hdc : d = c := by simpa using hc
        rw [← hdc]
        simpa using hp
    | cons e t =>
      simp only [rstripBy, hrt] at hc
      rw [List.getLast?_cons_cons] at hc
      rw [← hrt] at hc
      exact ih c hc

theorem rstripBy_eq_self_of_last {p : Char → Bool} :
    ∀ l : List Char, (∀ c, l.getLast? = some c → p c = false) → rstripBy p l = l := by
  intro l
  induction l with
  | nil => intro _; rfl
  | cons d cs ih =>
    intro h
    cases cs with
    | nil =>
      have hd := h d (by simp)
      simp [rstripBy, hd]
    | cons e t =>
      have hcs : rstripBy p (e :: t) = e :: t :=
        ih (fun c hc => h c (by rw [List.getLast?_cons_cons]; exact hc))
      show (match rstripBy p (e :: t) with
        | [] => if p d then [] else [d]
        | r => d :: r) = d :: e :: t
      rw [hcs]

/-- Does the list end in a whitespace character? -/
def endsInWs (l : List Char) : Bool :=
  match l.getLast? with
  | some c => isWsChar c
  | none => false

theorem nfmL_idem (l : List Char)
    (h : endsInWs (normalizeForMatchingL l) = false) :
    normalizeForMatchingL (normalizeForMatchingL l) = normalizeForMatchingL l := by
  have hfix := charFixB_of_mem_norm l
  have hP : collapsedP (normalizeForMatchingL l) = true := by
    unfold normalizeForMatchingL nfmStage6 nfmStage5
    exact collapsedP_rstripBy _ (collapsedP_rstripBy _ (collapsedP_dropWhile _
      (collapsedP_collapse _)))
  have hhead : headNonWs (normalizeForMatchingL l) = true := by
    unfold normalizeForMatchingL nfmStage6
    exact headNonWs_rstripBy (headNonWs_rstripBy (headNonWs_dropWhile _))
  have hlastPunct : ∀ c, (normalizeForMatchingL l).getLast? = some c →
      isPunctTailChar c = false := by
    intro c hc
    unfold normalizeForMatchingL nfmStage6 at hc
    exact rstripBy_getLast _ c hc
  have hlastWs : ∀ c, (normalizeForMatchingL l).getLast? = some c →
      isWsChar c = false := by
    intro c hc
    unfold endsInWs at h
    rw [hc] at h
    exact h
  have hrep : ∀ c ∈ normalizeForMatchingL l, replaceSpecialChar c = c := by
    intro c hc
    have := hfix c hc
    simp only [charFixB, Bool.and_eq_true, beq_iff_eq] at this
    exact this.1
  have hlow : ∀ c ∈ normalizeForMatchingL l, lowerChar c = c := by
    intro c hc
    have := hfix c hc
    simp only [charFixB, Bool.and_eq_true, beq_iff_eq] at this
    exact this.2
  conv_lhs => rw [normalizeForMatchingL]
  rw [show nfmStage1 (normalizeForMatchingL l) = normalizeForMatchingL l from
    map_eq_self_of_fix _ hrep]
  rw [nfmStage2_id, nfmStage3_id]
  rw [show nfmStage4 (normalizeForMatchingL l) = normalizeForMatchingL l from
    map_eq_self_of_fix _ hlow]
  rw [show nfmStage5 (normalizeForMatchingL l) = normalizeForMatchingL l from
    collapseAux_false_eq_self _ hP]
  unfold nfmStage6
  rw [dropWhile_eq_self_of_headNonWs hhead,
    rstripBy_eq_self_of_last _ hlastWs,
    rstripBy_eq_self_of_last _ hlastPunct]

/-- Claim C4, counterexample: `_normalize_for_matching` is not idempotent:
on `"a ."` the trailing-punctuation strip exposes a trailing space, so one
application yields `"a "` while a second application yields `"a"`. -/
theorem c4_counterexample :
    normalizeForMatchingS (normalizeForMatchingS "a .") ≠
      normalizeForMatchingS "a ." ∧
    normalizeForMatchingS "a ." = "a " ∧
    normalizeForMatchingS (normalizeForMatchingS "a .") = "a" := by
  refine ⟨by decide, by decide, by decide⟩

/-- Claim C4, amended: `_normalize_for_matching` is idempotent on exactly the
inputs whose normalization does not end in whitespace (stripping the trailing
punctuation `.,;:!` can expose a space that only the next application trims);
under that proviso a second application changes nothing. -/
theorem c4_theorem (s : String)
    (h : endsInWs (normalizeForMatchingL (strL s)) = false) :
    normalizeForMatchingS (normalizeForMatchingS s) = normalizeForMatchingS s := by
  unfold normalizeForMatchingS ofL strL
  simp only [String.toList]
  exact congrArg String.mk (nfmL_idem s.toList h)

/-- Witness for c4_theorem at `"Abc!"` (normalizes to `"abc"`, no trailing
whitespace). -/
theorem c4_witness :
    endsInWs (normalizeForMatchingL (strL "Abc!")) = false ∧
      normalizeForMatchingS (normalizeForMatchingS "Abc!") =
        normalizeForMatchingS "Abc!" :=
  ⟨by decide, c4_theorem "Abc!" (by decide)⟩

theorem strL_ofL (l : List Char) : strL (ofL l) = l := rfl

theorem replaceAllFuel_eq_self (key val : List Char) :
    ∀ (n : Nat) (l : List Char), containsSeq key l = false →
      replaceAllFuel key val n l = l := by
  intro n
  induction n with
  | zero => intro l _; rfl
  | succ n ih =>
    intro l h
    cases l with
    | nil => rfl
    | cons c cs =>
      simp only [containsSeq, Bool.or_eq_false_iff] at h
      obtain ⟨h1, h2⟩ := h
      have hcond : (!key.isEmpty && listStartsWith (c :: cs) key) = false := by
        rw [h1]; simp
      simp only [replaceAllFuel, hcond]
      simp only [Bool.false_eq_true, if_false]
      rw [ih cs h2]

theorem replaceAllL_eq_self (key val l : List Char)
    (h : containsSeq key l = false) : replaceAllL key val l = l :=
  replaceAllFuel_eq_self key val l.length l h

/-- The Fongbe tale title carrying a trailing `" – January 15, 2019"` date
suffix (a real key of BOOK_NICKNAME_MAPPING). -/
def fongbeDatedTitle : String :=
  "Conte Africain -Fongbe: « Travaille aujourd\x27hui et mange demain, paresse aujourd\x27hui et vole demain » – January 15, 2019"

/-- The same title with the date suffix removed. -/
def fongbeUndatedTitle : String :=
  "Conte Africain -Fongbe: « Travaille aujourd\x27hui et mange demain, paresse aujourd\x27hui et vole demain »"

/-- Claim C6, counterexample: the cleaning applied to sales records
(whitespace normalization plus title-variant substitution) leaves the dated
title unchanged — the date suffix survives — while the books-database step
does strip it. -/
theorem c6_counterexample :
    salesTitleClean fongbeDatedTitle = fongbeDatedTitle ∧
    booksTitleDateStrip fongbeDatedTitle = fongbeUndatedTitle ∧
    fongbeDatedTitle ≠ fongbeUndatedTitle := by
  refine ⟨by decide, by decide, by decide⟩

/-- Claim C6, amended: the record-cleaning applied to sales records never
strips a date suffix — on any title in which no title-variant key occurs it
is exactly trim + whitespace-collapse + trim — and the
`" – <Month> <Day>, <Year>"` stripping is instead applied to the
books-database titles in load_and_process_all_data (shown on the dated
Fongbe title). -/
theorem c6_theorem (s : String)
    (h1 : containsSeq (strL "Conversation de base")
      (collapseWs (stripBothL (strL s))) = false)
    (h2 : containsSeq (strL "Guide de conversation trilingue français-anglais-yemba")
      (collapseWs (stripBothL (strL s))) = false) :
    salesTitleClean s = ofL (stripBothL (collapseWs (stripBothL (strL s)))) ∧
    booksTitleDateStrip fongbeDatedTitle = fongbeUndatedTitle := by
  refine ⟨?_, by decide⟩
  unfold salesTitleClean normalizeTitleCell
  simp only [TITLE_NORMALIZATION, List.foldl, strL_ofL]
  rw [replaceAllL_eq_self _ _ _ h1, replaceAllL_eq_self _ _ _ h2]

/-- Witness for c6_theorem at the dated Fongbe title (no variant key occurs
in it). -/
theorem c6_witness :
    salesTitleClean fongbeDatedTitle =
      ofL (stripBothL (collapseWs (stripBothL (strL fongbeDatedTitle)))) ∧
    booksTitleDateStrip fongbeDatedTitle = fongbeUndatedTitle :=
  c6_theorem fongbeDatedTitle (by decide) (by decide)
